import Mathlib

/-!
Verification of the version-selection and spatial query engine of the
historic cadastre viewer (`src/App.tsx`).

The TypeScript source is shallowly embedded below:

* Strings are Lean `String`s; JavaScript string helpers that the code uses
  (`trim`, `startsWith`, truthiness, `replace(/'/g, "''")`) are re-expressed
  as computable functions on the underlying character lists, because the
  corresponding core-library functions do not reduce in the kernel.
* `Date.parse` / `new Date(s).getTime()` is an external collaborator; the
  embedding passes an arbitrary timestamp function `g : String → Int` where
  the code calls `getTime` on a date string.  `null` dates are `Option`.
* `fetch` outcomes are reified as a `FetchResult` value: a parsed JSON
  payload, a non-success HTTP status, or a thrown network error.
* React `useState` cells are fields of one `AppState` record: each event
  handler of the source becomes a state-transition function.
* `Array.prototype.sort` (stable) is modelled by a stable insertion sort;
  for a consistent comparator the stable sorted result is unique, so any
  stable sort is a faithful model.
* URL/query-parameter percent-encoding (`URL.searchParams`) is an external
  collaborator; the builders are modelled as the ordered parameter lists
  they set, with the CQL filter expression built exactly as in the source.
-/

/-- The single-quote character, `'` (code point 39). -/
def squote : Char := Char.ofNat 39

/-- One-character string holding a single quote. -/
def qstr : String := String.singleton squote

/-- JavaScript truthiness of a `string` value: `false` exactly on `""`. -/
def jsTruthyStr (s : String) : Bool := !s.data.isEmpty

/-- JavaScript truthiness of a `string | null` value
(`null` and `""` are falsy). -/
def jsTruthyOpt (s : Option String) : Bool :=
  match s with
  | none => false
  | some v => jsTruthyStr v

/-- The JavaScript idiom `s || undefined` used when passing `asOf` to the
query builders: an empty string is collapsed to `undefined`. -/
def jsOrUndefined (s : String) : Option String :=
  if jsTruthyStr s then some s else none

/-- Character-list core of `s.replace(/'/g, "''")`: every single quote is
replaced by two single quotes, all other characters are kept. -/
def escList (cs : List Char) : List Char :=
  cs.foldr (fun c acc => if c = squote then squote :: squote :: acc else c :: acc) []

/-- `s.replace(/'/g, "''")` from the source's query builders. -/
def escapeQuotes (s : String) : String := String.mk (escList s.data)

/-- JavaScript `String.prototype.trim` on the character list: drop
leading and trailing whitespace. -/
def trimL (cs : List Char) : List Char :=
  ((cs.dropWhile Char.isWhitespace).reverse.dropWhile Char.isWhitespace).reverse

/-- JavaScript `s.trim()`. -/
def jsTrim (s : String) : String := String.mk (trimL s.data)

/-- JavaScript `s.startsWith(p)`. -/
def jsStartsWith (s p : String) : Bool := p.data.isPrefixOf s.data

/-- `COLORS = ['#22c55e', '#3b82f6']` — the fixed two-colour palette. -/
def COLORS : List String := ["#22c55e", "#3b82f6"]

-- ======================================================================
-- Data model (`KyFeatureProps`, `WfsFeature`, `WfsResponse`)
-- ======================================================================

/-- One row of cadastral version attributes (`KyFeatureProps` in the
source).  `tunnus` is the parcel identifier; `kehtiv_alates` /
`kehtiv_kuni` are the validity bounds (`null` = active); `omviis` is the
acquisition method.  The open `[key: string]: unknown` tail of the source
type is not needed by any claim and is omitted. -/
structure KyFeatureProps where
  tunnus : String
  kehtiv_alates : Option String
  kehtiv_kuni : Option String
  omviis : Option String := none
deriving DecidableEq

/-- A WFS feature: `{ id, properties }`. -/
structure WfsFeature where
  id : String
  properties : KyFeatureProps
deriving DecidableEq

/-- A WFS `FeatureCollection` response (the `type` tag is constant). -/
structure WfsResponse where
  features : List WfsFeature
deriving DecidableEq

/-- The outcome of one `fetch` as the handlers observe it: a parsed
payload, a non-success HTTP status (`!r.ok`), or a thrown network
error carrying the message that ends up in `e.message`. -/
inductive FetchResult (α : Type) where
  | ok (val : α)
  | httpError (status : Nat)
  | thrown (msg : String)
deriving DecidableEq

-- ======================================================================
-- Query builders (CQL filter expressions and parameter lists)
-- ======================================================================

/-- The temporal validity predicate fragment
`kehtiv_alates <= 'date' AND (kehtiv_kuni IS NULL OR kehtiv_kuni > 'date')`
exactly as interpolated by the source (the date is interpolated verbatim). -/
def validityPredicate (date : String) : String :=
  "kehtiv_alates <= " ++ qstr ++ date ++ qstr ++
    " AND (kehtiv_kuni IS NULL OR kehtiv_kuni > " ++ qstr ++ date ++ qstr ++ ")"

/-- CQL filter of `buildWfsUrl` (attribute-list query): identifier equality,
optionally conjoined with the validity predicate when `date` is truthy. -/
def buildWfsUrl_cql (tunnus : String) (date : Option String) : String :=
  let safe := escapeQuotes tunnus
  match date with
  | some d =>
    if jsTruthyStr d then
      "tunnus = " ++ qstr ++ safe ++ qstr ++ " AND " ++ validityPredicate d
    else
      "tunnus = " ++ qstr ++ safe ++ qstr
  | none => "tunnus = " ++ qstr ++ safe ++ qstr

/-- `buildWfsUrl(tunnus, date?)`: the ordered WFS query parameters set by the
source; URL percent-encoding is left to the external `URL` collaborator. -/
def buildWfsUrl (tunnus : String) (date : Option String) : List (String × String) :=
  [("service", "WFS"), ("version", "1.1.0"), ("request", "GetFeature"),
   ("typeName", "kataster:ky_versioonid"), ("outputFormat", "application/json"),
   ("srsName", "EPSG:3301"),
   ("propertyName", "tunnus,kehtiv_alates,kehtiv_kuni,omviis"),
   ("CQL_FILTER", buildWfsUrl_cql tunnus date),
   ("sortBy", "kehtiv_alates D"), ("maxFeatures", "200")]

/-- CQL filter of `buildWfsUrl_fullByVersion`: exact interval match; a falsy
`kk` (null or empty) selects the `kehtiv_kuni IS NULL` branch. -/
def buildWfsUrl_fullByVersion_cql (tunnus : String) (ka kk : Option String) : String :=
  let safeT := escapeQuotes tunnus
  let safeKa := if jsTruthyOpt ka then escapeQuotes (ka.getD "") else ""
  let safeKk := if jsTruthyOpt kk then escapeQuotes (kk.getD "") else ""
  if jsTruthyOpt kk then
    "tunnus = " ++ qstr ++ safeT ++ qstr ++ " AND kehtiv_alates = " ++ qstr ++ safeKa ++ qstr ++
      " AND kehtiv_kuni = " ++ qstr ++ safeKk ++ qstr
  else
    "tunnus = " ++ qstr ++ safeT ++ qstr ++ " AND kehtiv_alates = " ++ qstr ++ safeKa ++ qstr ++
      " AND kehtiv_kuni IS NULL"

/-- `buildWfsUrl_fullByVersion(tunnus, ka, kk)`: parameters of the
full-geometry-by-version query. -/
def buildWfsUrl_fullByVersion (tunnus : String) (ka kk : Option String) :
    List (String × String) :=
  [("service", "WFS"), ("version", "1.1.0"), ("request", "GetFeature"),
   ("typeName", "kataster:ky_versioonid"), ("outputFormat", "application/json"),
   ("srsName", "EPSG:3301"),
   ("CQL_FILTER", buildWfsUrl_fullByVersion_cql tunnus ka kk)]

/-- CQL filter of `buildWfsUrl_allProps`: identifier equality only. -/
def buildWfsUrl_allProps_cql (tunnus : String) : String :=
  "tunnus = " ++ qstr ++ escapeQuotes tunnus ++ qstr

/-- `buildWfsUrl_allProps(tunnus)`: parameters of the all-properties query. -/
def buildWfsUrl_allProps (tunnus : String) : List (String × String) :=
  [("service", "WFS"), ("version", "1.1.0"), ("request", "GetFeature"),
   ("typeName", "kataster:ky_versioonid"), ("outputFormat", "application/json"),
   ("srsName", "EPSG:3301"),
   ("CQL_FILTER", buildWfsUrl_allProps_cql tunnus),
   ("sortBy", "kehtiv_alates D"), ("maxFeatures", "200")]

/-- The spatial predicate `INTERSECTS(geom,SRID=3301;POINT(x y))`; the
coordinates are numbers rendered by the JavaScript runtime, modelled here
as integers rendered by `toString`. -/
def intersectsPart (x y : Int) : String :=
  "INTERSECTS(geom,SRID=3301;POINT(" ++ toString x ++ " " ++ toString y ++ "))"

/-- CQL filter of `buildWfsUrl_byPoint`: the parts list holds the spatial
predicate, plus the validity predicate when `date` is truthy; parts are
joined with `" AND "`. -/
def buildWfsUrl_byPoint_cql (x y : Int) (date : Option String) : String :=
  let cqlParts :=
    [intersectsPart x y] ++
      (match date with
       | some d => if jsTruthyStr d then [validityPredicate d] else []
       | none => [])
  String.intercalate " AND " cqlParts

/-- `buildWfsUrl_byPoint(x, y, date?)`: parameters of the point query. -/
def buildWfsUrl_byPoint (x y : Int) (date : Option String) : List (String × String) :=
  [("service", "WFS"), ("version", "1.1.0"), ("request", "GetFeature"),
   ("typeName", "kataster:ky_versioonid"), ("outputFormat", "application/json"),
   ("srsName", "EPSG:3301"),
   ("propertyName", "tunnus,kehtiv_alates,kehtiv_kuni"),
   ("CQL_FILTER", buildWfsUrl_byPoint_cql x y date),
   ("sortBy", "kehtiv_alates D"), ("maxFeatures", "1")]

/-- The WMS rendering filter set by the `useEffect` on `asOf`
(`src.updateParams({ CQL_FILTER: filter })`): the validity predicate when
`asOf` is truthy, `undefined` otherwise. -/
def wmsCadFilter (asOf : String) : Option String :=
  if jsTruthyStr asOf then some (validityPredicate asOf) else none

-- ======================================================================
-- Identifier validation (`TUNNUS_RE`)
-- ======================================================================

/-- Match exactly `n` decimal digits at the head of the input, returning the
rest of the input on success (one regex atom `\d{n}`). -/
def matchDigits : Nat → List Char → Option (List Char)
  | 0, rest => some rest
  | _ + 1, [] => none
  | n + 1, c :: rest => if c.isDigit then matchDigits n rest else none

/-- `TUNNUS_RE.test s` for `TUNNUS_RE = /^\d{5}:\d{3}:\d{4}$/`, matched
atom by atom with both anchors. -/
def TUNNUS_RE_test (s : String) : Bool :=
  match matchDigits 5 s.data with
  | none => false
  | some r1 =>
    match r1 with
    | [] => false
    | c1 :: r2 =>
      if c1 = ':' then
        match matchDigits 3 r2 with
        | none => false
        | some r3 =>
          match r3 with
          | [] => false
          | c2 :: r4 =>
            if c2 = ':' then
              match matchDigits 4 r4 with
              | some [] => true
              | _ => false
            else false
      else false

/-- The validation that gates query submission in `doSearch`:
`TUNNUS_RE.test((tunnusOverride ?? term).trim())`. -/
def doSearchValid (term : String) (tunnusOverride : Option String) : Bool :=
  TUNNUS_RE_test (jsTrim (tunnusOverride.getD term))

-- quick sanity checks of the embedding on concrete inputs
example : TUNNUS_RE_test "79501:027:0011" = true := by decide
example : TUNNUS_RE_test "79501:27:0011" = false := by decide
example : doSearchValid " 79501:027:0011 " none = true := by decide
example : doSearchValid "" none = false := by decide
example : buildWfsUrl_cql "a" none = "tunnus = " ++ qstr ++ "a" ++ qstr := rfl
example : escapeQuotes ("a" ++ qstr ++ "b") = "a" ++ qstr ++ qstr ++ "b" := by decide

-- ======================================================================
-- Stable sort model for `Array.prototype.sort`
-- ======================================================================

/-- Stable insert: place `x` before the first element `y` with `le x y`;
ties keep the earlier (inserted) element first, matching stability. -/
def insertS {α : Type} (le : α → α → Bool) (x : α) : List α → List α
  | [] => [x]
  | y :: ys => if le x y then x :: y :: ys else y :: insertS le x ys

/-- Stable insertion sort, the model of JavaScript `Array.prototype.sort`
(stable per the ECMAScript specification; for a consistent comparator the
stable sorted permutation is unique, so the algorithm choice is immaterial). -/
def sortJs {α : Type} (le : α → α → Bool) : List α → List α
  | [] => []
  | x :: xs => insertS le x (sortJs le xs)

/-- The listing comparator of `doSearch` (source lines 389-402), with
`new Date(s).getTime()` supplied as the external function `g`. -/
def versionCmp (g : String → Int) (a b : KyFeatureProps) : Int :=
  let aActive := a.kehtiv_kuni = none
  let bActive := b.kehtiv_kuni = none
  if aActive ∧ ¬bActive then -1
  else if ¬aActive ∧ bActive then 1
  else if jsTruthyOpt a.kehtiv_kuni ∧ jsTruthyOpt b.kehtiv_kuni ∧
          g (b.kehtiv_kuni.getD "") - g (a.kehtiv_kuni.getD "") ≠ 0 then
    g (b.kehtiv_kuni.getD "") - g (a.kehtiv_kuni.getD "")
  else if jsTruthyOpt a.kehtiv_alates ∧ jsTruthyOpt b.kehtiv_alates then
    g (b.kehtiv_alates.getD "") - g (a.kehtiv_alates.getD "")
  else 0

/-- `items.sort(comparator)` of `doSearch`. -/
def sortVersions (g : String → Int) (items : List KyFeatureProps) : List KyFeatureProps :=
  sortJs (fun a b => decide (versionCmp g a b ≤ 0)) items

/-- `detRows.sort((a, b) => new Date(b.kehtiv_alates ?? '').getTime() -
new Date(a.kehtiv_alates ?? '').getTime())` used on the detail rows. -/
def sortDetail (g : String → Int) (rows : List KyFeatureProps) : List KyFeatureProps :=
  sortJs (fun a b =>
    decide (g (b.kehtiv_alates.getD "") - g (a.kehtiv_alates.getD "") ≤ 0)) rows

-- ======================================================================
-- Application state and event handlers
-- ======================================================================

/-- A feature held by the vector overlay source: its `___key` and
`___color` properties and an abstract identifier of its geometry. -/
structure OlFeature where
  key : Option String
  color : Option String
  geomId : Nat
deriving DecidableEq

/-- The detail drawer state `{ open, tunnus?, rows? }`. -/
structure DrawerState where
  «open» : Bool
  tunnus : Option String := none
  rows : Option (List KyFeatureProps) := none
deriving DecidableEq

/-- The `useState` cells of `App` that the selection engine touches.
`colorByKey` is a total lookup function because a JavaScript object read
returns `undefined` both for an absent key and an `undefined` value. -/
structure AppState where
  selectedKeys : List String
  colorByKey : String → Option String
  vecFeatures : List OlFeature
  drawer : DrawerState
  rows : List KyFeatureProps
  error : Option String
  toast : Option String
  popup : Option String
  term : String
  asOf : String

/-- `next` of `assignColors`: `keys.forEach((k, i) => next[k] = COLORS[i])`;
a later assignment to the same key overwrites the earlier one. -/
def colorMapOf (keys : List String) : String → Option String :=
  keys.enum.foldl (fun m p => fun s => if s = p.2 then COLORS.get? p.1 else m s)
    (fun _ => none)

/-- The per-feature update of `assignColors`: `const k = f.get('___key');
if (k && next[k]) f.set('___color', next[k])`. -/
def recolor (next : String → Option String) (f : OlFeature) : OlFeature :=
  match f.key with
  | some k => if jsTruthyStr k ∧ (next k).isSome then { f with color := next k } else f
  | none => f

/-- `assignColors(keys)`: rebuild `colorByKey` and push the colours onto the
features currently in the vector source. -/
def assignColors (keys : List String) (st : AppState) : AppState :=
  let next := colorMapOf keys
  { st with colorByKey := next, vecFeatures := st.vecFeatures.map (recolor next) }

/-- The selection key `` `${row.tunnus}|${row.kehtiv_alates}|${row.kehtiv_kuni}` ``;
a `null` bound renders as the string `"null"` in a template literal. -/
def versionKey (row : KyFeatureProps) : String :=
  row.tunnus ++ "|" ++ row.kehtiv_alates.getD "null" ++ "|" ++ row.kehtiv_kuni.getD "null"

/-- The capacity toast text of `toggleVersion`. -/
def capacityMsg : String :=
  "Maksimaalselt 2 versiooni saab korraga võrrelda. Eemalda üks, et lisada uus."

/-- The `already` branch of `toggleVersion`: drop the key, reassign colours
(before the features are removed, as in the source), remove the key's
features, and close the drawer when no remaining key shares the tunnus. -/
def toggleRemove (st : AppState) (row : KyFeatureProps) (k : String) : AppState :=
  let newKeys := st.selectedKeys.filter (fun x => x ≠ k)
  let st1 := assignColors newKeys { st with selectedKeys := newKeys }
  let st2 := { st1 with vecFeatures := st1.vecFeatures.filter (fun f => f.key ≠ some k) }
  if st2.drawer.«open» ∧ st2.drawer.tunnus = some row.tunnus ∧
      ¬(newKeys.any (fun x => jsStartsWith x (row.tunnus ++ "|"))) then
    { st2 with drawer := { «open» := false } }
  else st2

/-- The add path of `toggleVersion` after the capacity check: geometry fetch,
zero-feature check, state mutation, then the all-properties fetch.  `gf`
carries the features produced by `GeoJSON.readFeatures` as abstract geometry
identifiers; `df` carries the parsed all-properties response. -/
def toggleAdd (g : String → Int) (st : AppState) (row : KyFeatureProps) (k : String)
    (gf : FetchResult (List Nat)) (df : FetchResult WfsResponse) : AppState :=
  match gf with
  | .httpError s => { st with error := some ("WFS error " ++ toString s) }
  | .thrown msg => { st with error := some msg }
  | .ok feats =>
    if feats.isEmpty then { st with error := some "Geomeetriat ei leitud." }
    else
      let newKeys := st.selectedKeys ++ [k]
      let st1 := assignColors newKeys { st with selectedKeys := newKeys }
      let st2 := { st1 with
        vecFeatures :=
          st1.vecFeatures ++ feats.map (fun gid => OlFeature.mk (some k) none gid) }
      match df with
      | .httpError s => { st2 with error := some ("WFS error " ++ toString s) }
      | .thrown msg => { st2 with error := some msg }
      | .ok detJson =>
        let detRows := detJson.features.map (·.properties)
        { st2 with drawer :=
            { «open» := true, tunnus := some row.tunnus,
              rows := some (sortDetail g detRows) } }

/-- `toggleVersion(row)` (source lines 412-460), with the outcomes of the
two fetches passed in explicitly. -/
def toggleVersion (g : String → Int) (st : AppState) (row : KyFeatureProps)
    (gf : FetchResult (List Nat)) (df : FetchResult WfsResponse) : AppState :=
  let k := versionKey row
  if st.selectedKeys.contains k then
    toggleRemove st row k
  else if 2 ≤ st.selectedKeys.length then
    { st with toast := some capacityMsg }
  else
    toggleAdd g st row k gf df

/-- `clearSelections()`. -/
def clearSelections (st : AppState) : AppState :=
  { st with selectedKeys := [], colorByKey := fun _ => none,
            vecFeatures := [], drawer := { «open» := false } }

/-- `doSearch(tunnusOverride?)` with the fetch outcome passed in.  The
transient `loading` flag (set and then cleared within the handler) is not
part of the observable final state. -/
def doSearch (g : String → Int) (st : AppState) (tunnusOverride : Option String)
    (fr : FetchResult WfsResponse) : AppState :=
  let q := jsTrim (tunnusOverride.getD st.term)
  let valid := TUNNUS_RE_test q
  let st0 := { st with error := none, rows := [] }
  if ¬valid then
    { st0 with error := some "Palun sisesta täielik tunnus kujul 79501:027:0011" }
  else
    match fr with
    | .httpError s => { st0 with error := some ("WFS error " ++ toString s) }
    | .thrown msg => { st0 with error := some msg }
    | .ok json =>
      { st0 with rows := sortVersions g (json.features.map (·.properties)) }

/-- `handleMapClick` (source lines 260-276): close the popup, then either
show the first feature's tunnus or silently do nothing. -/
def handleMapClick (st : AppState) (fr : FetchResult WfsResponse) : AppState :=
  let st0 := { st with popup := none }
  match fr with
  | .httpError _ => st0
  | .thrown _ => st0
  | .ok json =>
    match json.features.head? with
    | some feat => { st0 with popup := some feat.properties.tunnus }
    | none => st0

/-- The initial state of the selection engine: no selection, no colours, no
features, drawer closed (the initial `asOf` is studied separately and is
irrelevant to the selection claims, so the empty string is used here). -/
def initState : AppState :=
  { selectedKeys := [], colorByKey := fun _ => none, vecFeatures := [],
    drawer := { «open» := false }, rows := [], error := none, toast := none,
    popup := none, term := "", asOf := "" }

/-- States reachable from the initial state by any sequence of the
selection-engine operations. -/
inductive Reachable (g : String → Int) : AppState → Prop where
  | init : Reachable g initState
  | toggle {st : AppState} (row : KyFeatureProps) (gf : FetchResult (List Nat))
      (df : FetchResult WfsResponse) :
      Reachable g st → Reachable g (toggleVersion g st row gf df)
  | clear {st : AppState} : Reachable g st → Reachable g (clearSelections st)
  | search {st : AppState} (tunnusOverride : Option String)
      (fr : FetchResult WfsResponse) :
      Reachable g st → Reachable g (doSearch g st tunnusOverride fr)
  | mapClick {st : AppState} (fr : FetchResult WfsResponse) :
      Reachable g st → Reachable g (handleMapClick st fr)

-- ======================================================================
-- Initial as-of date (`useState` initialiser, source lines 199-203)
-- ======================================================================

/-- The decimal digit character for `k mod 10`. -/
def digitCh (k : Nat) : Char := Char.ofNat (48 + k % 10)

/-- A natural number rendered as exactly two decimal digits, zero-padded
(the ISO month/day field for values 0-99). -/
def twoDigits (n : Nat) : String := String.mk [digitCh (n / 10), digitCh n]

/-- A natural number rendered as exactly four decimal digits, zero-padded
(the ISO year field as `Date.prototype.toISOString` renders years 0-9999;
outside that range `toISOString` switches to an expanded ±YYYYYY form, which
is excluded by the hypotheses of the theorems below). -/
def fourDigits (n : Nat) : String :=
  String.mk [digitCh (n / 1000), digitCh (n / 100), digitCh (n / 10), digitCh n]

/-- Proleptic-Gregorian civil date from a count of days since 1970-01-01
(the calendar underlying `Date.prototype.toISOString`). -/
def civilFromDays (z0 : Int) : Int × Nat × Nat :=
  let z := z0 + 719468
  let era := Int.fdiv z 146097
  let doe := (z - era * 146097).toNat
  let yoe := (doe - doe / 1460 + doe / 36524 - doe / 146096) / 365
  let y := (yoe : Int) + era * 400
  let doy := doe - (365 * yoe + yoe / 4 - yoe / 100)
  let mp := (5 * doy + 2) / 153
  let d := doy - (153 * mp + 2) / 5 + 1
  let m := if mp < 10 then mp + 3 else mp - 9
  (if m ≤ 2 then y + 1 else y, m, d)

/-- `new Date(ms).toISOString().slice(0, 10)`: the UTC calendar date of an
epoch-millisecond instant, formatted `YYYY-MM-DD`. -/
def toISODateOfMs (ms : Int) : String :=
  let days := Int.fdiv ms 86400000
  let c := civilFromDays days
  fourDigits c.1.toNat ++ "-" ++ twoDigits c.2.1 ++ "-" ++ twoDigits c.2.2

/-- The `useState` initialiser of `asOf`:
`const d = new Date(); d.setMinutes(d.getMinutes() - d.getTimezoneOffset());
return d.toISOString().slice(0, 10)`.  Shifting the minutes by the negated
timezone offset moves the instant by `-tzOffsetMin` minutes, so the UTC
rendering of the shifted instant is the local calendar date of `nowMs`. -/
def initAsOf (nowMs tzOffsetMin : Int) : String :=
  toISODateOfMs (nowMs - tzOffsetMin * 60000)

example : initAsOf 0 0 = "1970-01-01" := by decide
example : initAsOf 1760140800000 (-180) = "2025-10-11" := by decide

-- ======================================================================
-- CQL string-literal lexing (to state the escaping property)
-- ======================================================================

/-- Lexer mode while scanning a CQL filter for its quoted string literals:
outside any literal, inside a literal, or just after a quote seen inside a
literal (which is an escape if another quote follows, a close otherwise). -/
inductive LexMode where
  | outside
  | inside
  | pending
deriving DecidableEq

/-- One-pass scan of a CQL filter collecting the contents of its quoted
string literals, un-doubling escaped quotes; `none` when the input ends
inside an unterminated literal.  `acc` is the current literal (reversed),
`lits` the finished literals (reversed). -/
def lexRun : List Char → LexMode → List Char → List String → Option (List String)
  | [], .outside, _, lits => some lits.reverse
  | [], .inside, _, _ => none
  | [], .pending, acc, lits => some (String.mk acc.reverse :: lits).reverse
  | c :: rest, .outside, acc, lits =>
    if c = squote then lexRun rest .inside [] lits
    else lexRun rest .outside acc lits
  | c :: rest, .inside, acc, lits =>
    if c = squote then lexRun rest .pending acc lits
    else lexRun rest .inside (c :: acc) lits
  | c :: rest, .pending, acc, lits =>
    if c = squote then lexRun rest .inside (squote :: acc) lits
    else lexRun rest .outside [] (String.mk acc.reverse :: lits)

/-- The quoted string literals of a CQL filter expression, as the
feature-service predicate parser would read them (doubled quotes inside a
literal denote one quote character). -/
def lexLiterals (s : String) : Option (List String) :=
  lexRun s.data .outside [] []

example : lexLiterals ("tunnus = " ++ qstr ++ "ab" ++ qstr) = some ["ab"] := by decide
example :
    lexLiterals ("x = " ++ qstr ++ "a" ++ qstr ++ qstr ++ "b" ++ qstr ++ " AND y") =
      some ["a" ++ qstr ++ "b"] := by decide

/-- Guard used when closing a literal: the next character (if any) is not a
quote, so the closing quote is not an escape pair. -/
def headNotQuote : List Char → Bool
  | [] => true
  | c :: _ => decide (c ≠ squote)

lemma qstr_data : qstr.data = [squote] := rfl

lemma string_mk_data (s : String) : String.mk s.data = s := rfl

lemma escList_of_not_mem {cs : List Char} (h : squote ∉ cs) : escList cs = cs := by
  induction cs with
  | nil => rfl
  | cons c cs ih =>
    simp only [List.mem_cons, not_or] at h
    simp only [escList, List.foldr_cons] at ih ⊢
    rw [if_neg (by exact fun hc => h.1 hc.symm), ih h.2]

lemma lexRun_skip {seg : List Char} (h : squote ∉ seg) (rest : List Char)
    (acc : List Char) (lits : List String) :
    lexRun (seg ++ rest) .outside acc lits = lexRun rest .outside acc lits := by
  induction seg generalizing acc with
  | nil => rfl
  | cons c seg ih =>
    simp only [List.mem_cons, not_or] at h
    simp only [List.cons_append, lexRun]
    rw [if_neg (by exact fun hc => h.1 hc.symm)]
    exact ih h.2 acc

lemma lexRun_open (rest : List Char) (acc : List Char) (lits : List String) :
    lexRun (squote :: rest) .outside acc lits = lexRun rest .inside [] lits := by
  simp [lexRun]

lemma lexRun_close (cs : List Char) {rest : List Char} (h : headNotQuote rest = true)
    (acc : List Char) (lits : List String) :
    lexRun (escList cs ++ squote :: rest) .inside acc lits =
      lexRun rest .outside [] (String.mk (acc.reverse ++ cs) :: lits) := by
  induction cs generalizing acc with
  | nil =>
    simp only [escList, List.foldr_nil, List.nil_append, lexRun, if_pos rfl]
    cases rest with
    | nil => simp [lexRun]
    | cons c rest =>
      have hc : ¬(c = squote) := by
        simpa [headNotQuote] using h
      simp [lexRun, if_neg hc]
  | cons c cs ih =>
    by_cases hc : c = squote
    · subst hc
      simp only [escList, List.foldr_cons, if_pos rfl]
      show lexRun (squote :: squote :: (escList cs ++ squote :: rest)) .inside acc lits = _
      rw [show lexRun (squote :: squote :: (escList cs ++ squote :: rest)) .inside acc lits =
            lexRun (escList cs ++ squote :: rest) .inside (squote :: acc) lits by
          simp [lexRun]]
      rw [ih]
      simp
    · simp only [escList, List.foldr_cons, if_neg hc]
      show lexRun (c :: (escList cs ++ squote :: rest)) .inside acc lits = _
      rw [show lexRun (c :: (escList cs ++ squote :: rest)) .inside acc lits =
            lexRun (escList cs ++ squote :: rest) .inside (c :: acc) lits by
          simp [lexRun, if_neg hc]]
      rw [ih]
      simp

lemma lexRun_term (acc : List Char) (lits : List String) :
    lexRun [] .outside acc lits = some lits.reverse := rfl

lemma data_mk (l : List Char) : (String.mk l).data = l := rfl

lemma digitChar_ne_squote {k : Nat} (h : k < 10) : Nat.digitChar k ≠ squote := by
  interval_cases k <;> decide

lemma toDigitsCore_no_squote (fuel : Nat) :
    ∀ (n : Nat) (ds : List Char), (∀ c ∈ ds, c ≠ squote) →
      ∀ c ∈ Nat.toDigitsCore 10 fuel n ds, c ≠ squote := by
  induction fuel with
  | zero => intro n ds hds c hc; exact hds c hc
  | succ fuel ih =>
    intro n ds hds c hc
    simp only [Nat.toDigitsCore] at hc
    have hdig : ∀ c ∈ (Nat.digitChar (n % 10) :: ds), c ≠ squote := by
      intro c hc
      rcases List.mem_cons.mp hc with h | h
      · subst h; exact digitChar_ne_squote (Nat.mod_lt _ (by norm_num))
      · exact hds c h
    by_cases hz : n / 10 = 0
    · rw [if_pos hz] at hc
      exact hdig c hc
    · rw [if_neg hz] at hc
      exact ih (n / 10) _ hdig c hc

lemma nat_repr_no_squote (n : Nat) : squote ∉ (Nat.repr n).data := by
  intro hc
  exact toDigitsCore_no_squote (n + 1) n [] (by simp) squote hc rfl

lemma int_toString_no_squote (n : Int) : squote ∉ (toString n).data := by
  cases n with
  | ofNat m => exact nat_repr_no_squote m
  | negSucc m =>
    show squote ∉ ("-" ++ Nat.repr (m + 1)).data
    rw [String.data_append]
    intro hc
    rcases List.mem_append.mp hc with h | h
    · simp [String.data] at h
      exact absurd h (by decide)
    · exact nat_repr_no_squote (m + 1) h

lemma intersectsPart_no_squote (x y : Int) : squote ∉ (intersectsPart x y).data := by
  intro hc
  simp only [intersectsPart, String.data_append, List.mem_append] at hc
  rcases hc with ((((h | h) | h) | h) | h)
  · exact absurd h (by decide)
  · exact int_toString_no_squote x h
  · exact absurd h (by decide)
  · exact int_toString_no_squote y h
  · exact absurd h (by decide)

-- Literal extraction for each builder's CQL filter -------------------------

lemma escapeQuotes_data (s : String) : (escapeQuotes s).data = escList s.data := rfl

-- Proof-side names for the constant text segments of the filters, shielding
-- the string literals from unfolding during rewriting.

def segTunnusEq : String := "tunnus = "
def segAnd : String := " AND "
def segKaPred : String := "kehtiv_alates <= "
def segKkPred : String := " AND (kehtiv_kuni IS NULL OR kehtiv_kuni > "
def segClose : String := ")"
def segKaEq : String := " AND kehtiv_alates = "
def segKkEq : String := " AND kehtiv_kuni = "
def segKkIsNull : String := " AND kehtiv_kuni IS NULL"

lemma getD_of_falsy {o : Option String} (h : jsTruthyOpt o = false) :
    o.getD "" = "" := by
  cases o with
  | none => rfl
  | some s =>
    simp only [jsTruthyOpt, jsTruthyStr, Bool.not_eq_false'] at h
    have : s.data = [] := List.isEmpty_iff.mp h
    calc (some s).getD "" = s := rfl
    _ = String.mk s.data := rfl
    _ = String.mk [] := by rw [this]
    _ = "" := rfl

lemma safeOf (o : Option String) :
    (if jsTruthyOpt o then escapeQuotes (o.getD "") else "") =
      escapeQuotes (o.getD "") := by
  by_cases h : jsTruthyOpt o = true
  · rw [if_pos h]
  · have h := Bool.not_eq_true _ |>.mp h
    rw [if_neg (by simp [h]), getD_of_falsy h]
    rfl

lemma headNotQuote_append {seg X : List Char} (h1 : seg ≠ []) (h2 : headNotQuote seg = true) :
    headNotQuote (seg ++ X) = true := by
  cases seg with
  | nil => exact absurd rfl h1
  | cons c rest => simpa [headNotQuote] using h2

lemma lexRun_close_seg (cs : List Char) {seg : List Char} (h1 : seg ≠ [])
    (h2 : headNotQuote seg = true) (X : List Char) (acc : List Char) (lits : List String) :
    lexRun (escList cs ++ squote :: (seg ++ X)) .inside acc lits =
      lexRun (seg ++ X) .outside [] (String.mk (acc.reverse ++ cs) :: lits) :=
  lexRun_close cs (headNotQuote_append h1 h2) acc lits

lemma lexRun_final {seg : List Char} (h : squote ∉ seg) (acc : List Char)
    (lits : List String) : lexRun seg .outside acc lits = some lits.reverse := by
  have := lexRun_skip h [] acc lits
  rw [List.append_nil] at this
  rw [this, lexRun_term]

lemma lexLiterals_allProps (t : String) :
    lexLiterals (buildWfsUrl_allProps_cql t) = some [t] := by
  have hshape : buildWfsUrl_allProps_cql t = segTunnusEq ++ qstr ++ escapeQuotes t ++ qstr :=
    rfl
  rw [lexLiterals, hshape]
  simp only [String.data_append, qstr_data, escapeQuotes_data, List.append_assoc,
    List.cons_append, List.singleton_append, List.nil_append]
  rw [lexRun_skip (by decide), lexRun_open, lexRun_close _ (by decide)]
  simp [lexRun_term, string_mk_data]

lemma lexLiterals_attr_noDate (t : String) :
    lexLiterals (buildWfsUrl_cql t none) = some [t] := by
  exact lexLiterals_allProps t

lemma lexLiterals_attr_date (t d : String) (hd : squote ∉ d.data)
    (hne : jsTruthyStr d = true) :
    lexLiterals (buildWfsUrl_cql t (some d)) = some [t, d, d] := by
  have hshape : buildWfsUrl_cql t (some d) =
      segTunnusEq ++ qstr ++ escapeQuotes t ++ qstr ++ segAnd ++
        (segKaPred ++ qstr ++ d ++ qstr ++ segKkPred ++ qstr ++ d ++ qstr ++ segClose) := by
    simp only [buildWfsUrl_cql, validityPredicate, hne, if_true]
    rfl
  rw [lexLiterals, hshape]
  simp only [String.data_append, qstr_data, escapeQuotes_data, List.append_assoc,
    List.cons_append, List.singleton_append, List.nil_append]
  rw [show d.data = escList d.data from (escList_of_not_mem hd).symm]
  rw [lexRun_skip (by decide), lexRun_open,
    lexRun_close_seg _ (by decide) (by decide)]
  rw [lexRun_skip (by decide), lexRun_skip (by decide), lexRun_open,
    lexRun_close_seg _ (by decide) (by decide)]
  rw [lexRun_skip (by decide), lexRun_open, lexRun_close _ (by decide)]
  rw [lexRun_final (by decide)]
  simp [string_mk_data]

lemma lexLiterals_fullByVersion_kk (t : String) (ka kk : Option String)
    (hkk : jsTruthyOpt kk = true) :
    lexLiterals (buildWfsUrl_fullByVersion_cql t ka kk) =
      some [t, ka.getD "", kk.getD ""] := by
  have hshape : buildWfsUrl_fullByVersion_cql t ka kk =
      segTunnusEq ++ qstr ++ escapeQuotes t ++ qstr ++ segKaEq ++ qstr ++
        escapeQuotes (ka.getD "") ++ qstr ++ segKkEq ++ qstr ++
        escapeQuotes (kk.getD "") ++ qstr := by
    simp only [buildWfsUrl_fullByVersion_cql, safeOf, hkk, if_true]
    rfl
  rw [lexLiterals, hshape]
  simp only [String.data_append, qstr_data, escapeQuotes_data, List.append_assoc,
    List.cons_append, List.singleton_append, List.nil_append]
  rw [lexRun_skip (by decide), lexRun_open,
    lexRun_close_seg _ (by decide) (by decide)]
  rw [lexRun_skip (by decide), lexRun_open,
    lexRun_close_seg _ (by decide) (by decide)]
  rw [lexRun_skip (by decide), lexRun_open, lexRun_close _ (by decide)]
  simp [lexRun_term, string_mk_data]

lemma lexLiterals_fullByVersion_null (t : String) (ka kk : Option String)
    (hkk : jsTruthyOpt kk = false) :
    lexLiterals (buildWfsUrl_fullByVersion_cql t ka kk) = some [t, ka.getD ""] := by
  have hshape : buildWfsUrl_fullByVersion_cql t ka kk =
      segTunnusEq ++ qstr ++ escapeQuotes t ++ qstr ++ segKaEq ++ qstr ++
        escapeQuotes (ka.getD "") ++ qstr ++ segKkIsNull := by
    simp only [buildWfsUrl_fullByVersion_cql, safeOf, hkk, Bool.false_eq_true,
      if_false]
    rfl
  rw [lexLiterals, hshape]
  simp only [String.data_append, qstr_data, escapeQuotes_data, List.append_assoc,
    List.cons_append, List.singleton_append, List.nil_append]
  rw [lexRun_skip (by decide), lexRun_open,
    lexRun_close_seg _ (by decide) (by decide)]
  rw [lexRun_skip (by decide), lexRun_open, lexRun_close _ (by decide)]
  rw [lexRun_final (by decide)]
  simp [string_mk_data]

lemma byPoint_cql_noDate (x y : Int) :
    buildWfsUrl_byPoint_cql x y none = intersectsPart x y := rfl

lemma lexLiterals_byPoint_noDate (x y : Int) :
    lexLiterals (buildWfsUrl_byPoint_cql x y none) = some [] := by
  rw [byPoint_cql_noDate, lexLiterals, lexRun_final (intersectsPart_no_squote x y)]
  rfl

lemma lexLiterals_byPoint_date (x y : Int) (d : String) (hd : squote ∉ d.data)
    (hne : jsTruthyStr d = true) :
    lexLiterals (buildWfsUrl_byPoint_cql x y (some d)) = some [d, d] := by
  have hshape : buildWfsUrl_byPoint_cql x y (some d) =
      intersectsPart x y ++ segAnd ++
        (segKaPred ++ qstr ++ d ++ qstr ++ segKkPred ++ qstr ++ d ++ qstr ++ segClose) := by
    simp only [buildWfsUrl_byPoint_cql, validityPredicate, hne, if_true]
    rfl
  rw [lexLiterals, hshape]
  simp only [String.data_append, qstr_data, List.append_assoc,
    List.cons_append, List.singleton_append, List.nil_append]
  rw [show d.data = escList d.data from (escList_of_not_mem hd).symm]
  rw [lexRun_skip (intersectsPart_no_squote x y), lexRun_skip (by decide),
    lexRun_skip (by decide), lexRun_open,
    lexRun_close_seg _ (by decide) (by decide)]
  rw [lexRun_skip (by decide), lexRun_open, lexRun_close _ (by decide)]
  rw [lexRun_final (by decide)]
  simp [string_mk_data]

-- ======================================================================
-- Selection-state invariants
-- ======================================================================

lemma recolor_key (next : String → Option String) (f : OlFeature) :
    (recolor next f).key = f.key := by
  rcases f with ⟨key, color, geomId⟩
  cases key with
  | none => rfl
  | some k =>
    dsimp only [recolor]
    split <;> rfl

lemma recolor_geomId (next : String → Option String) (f : OlFeature) :
    (recolor next f).geomId = f.geomId := by
  rcases f with ⟨key, color, geomId⟩
  cases key with
  | none => rfl
  | some k =>
    dsimp only [recolor]
    split <;> rfl

/-- The structural invariant of the selection engine: at most two selected
keys, no duplicates, the colour map is exactly the one assigned from the
current ordered keys, and every overlay feature is keyed by a selected key. -/
def SelInv (st : AppState) : Prop :=
  st.selectedKeys.length ≤ 2 ∧ st.selectedKeys.Nodup ∧
  st.colorByKey = colorMapOf st.selectedKeys ∧
  (∀ f ∈ st.vecFeatures, ∃ k, f.key = some k ∧ k ∈ st.selectedKeys)

lemma selInv_init : SelInv initState := by
  refine ⟨by simp [initState], by simp [initState], rfl, ?_⟩
  intro f hf
  simp [initState] at hf

lemma selInv_clear {st : AppState} (_h : SelInv st) : SelInv (clearSelections st) := by
  refine ⟨by simp [clearSelections], by simp [clearSelections], rfl, ?_⟩
  intro f hf
  simp [clearSelections] at hf

lemma doSearch_proj (g : String → Int) (st : AppState) (o : Option String)
    (fr : FetchResult WfsResponse) :
    (doSearch g st o fr).selectedKeys = st.selectedKeys ∧
    (doSearch g st o fr).colorByKey = st.colorByKey ∧
    (doSearch g st o fr).vecFeatures = st.vecFeatures ∧
    (doSearch g st o fr).drawer = st.drawer ∧
    (doSearch g st o fr).toast = st.toast ∧
    (doSearch g st o fr).popup = st.popup := by
  dsimp only [doSearch]
  split
  · exact ⟨rfl, rfl, rfl, rfl, rfl, rfl⟩
  · cases fr <;> exact ⟨rfl, rfl, rfl, rfl, rfl, rfl⟩

lemma handleMapClick_proj (st : AppState) (fr : FetchResult WfsResponse) :
    (handleMapClick st fr).selectedKeys = st.selectedKeys ∧
    (handleMapClick st fr).colorByKey = st.colorByKey ∧
    (handleMapClick st fr).vecFeatures = st.vecFeatures ∧
    (handleMapClick st fr).drawer = st.drawer ∧
    (handleMapClick st fr).error = st.error ∧
    (handleMapClick st fr).toast = st.toast := by
  dsimp only [handleMapClick]
  cases fr with
  | ok json =>
    dsimp only
    split <;> exact ⟨rfl, rfl, rfl, rfl, rfl, rfl⟩
  | httpError s => exact ⟨rfl, rfl, rfl, rfl, rfl, rfl⟩
  | thrown m => exact ⟨rfl, rfl, rfl, rfl, rfl, rfl⟩

lemma selInv_search {g : String → Int} {st : AppState} (o : Option String)
    (fr : FetchResult WfsResponse) (h : SelInv st) : SelInv (doSearch g st o fr) := by
  obtain ⟨h1, h2, h3, h4⟩ := h
  obtain ⟨e1, e2, e3, _, _, _⟩ := doSearch_proj g st o fr
  exact ⟨e1 ▸ h1, e1 ▸ h2, by rw [e2, e1, h3], by rw [e3, e1]; exact h4⟩

lemma selInv_mapClick {st : AppState} (fr : FetchResult WfsResponse)
    (h : SelInv st) : SelInv (handleMapClick st fr) := by
  obtain ⟨h1, h2, h3, h4⟩ := h
  obtain ⟨e1, e2, e3, _, _, _⟩ := handleMapClick_proj st fr
  exact ⟨e1 ▸ h1, e1 ▸ h2, by rw [e2, e1, h3], by rw [e3, e1]; exact h4⟩

lemma toggleRemove_sel (st : AppState) (row : KyFeatureProps) (k : String) :
    (toggleRemove st row k).selectedKeys =
      st.selectedKeys.filter (fun x => x ≠ k) := by
  dsimp only [toggleRemove, assignColors]
  split <;> rfl

lemma toggleRemove_color (st : AppState) (row : KyFeatureProps) (k : String) :
    (toggleRemove st row k).colorByKey =
      colorMapOf (st.selectedKeys.filter (fun x => x ≠ k)) := by
  dsimp only [toggleRemove, assignColors]
  split <;> rfl

lemma toggleRemove_vec (st : AppState) (row : KyFeatureProps) (k : String) :
    (toggleRemove st row k).vecFeatures =
      (st.vecFeatures.map
        (recolor (colorMapOf (st.selectedKeys.filter (fun x => x ≠ k))))).filter
        (fun f => f.key ≠ some k) := by
  dsimp only [toggleRemove, assignColors]
  split <;> rfl

lemma toggleRemove_error (st : AppState) (row : KyFeatureProps) (k : String) :
    (toggleRemove st row k).error = st.error := by
  dsimp only [toggleRemove, assignColors]
  split <;> rfl

lemma toggleRemove_toast (st : AppState) (row : KyFeatureProps) (k : String) :
    (toggleRemove st row k).toast = st.toast := by
  dsimp only [toggleRemove, assignColors]
  split <;> rfl

lemma toggle_already {st : AppState} {row : KyFeatureProps}
    (h : st.selectedKeys.contains (versionKey row) = true)
    (g : String → Int) (gf : FetchResult (List Nat)) (df : FetchResult WfsResponse) :
    toggleVersion g st row gf df = toggleRemove st row (versionKey row) := by
  dsimp only [toggleVersion]
  rw [if_pos h]

lemma toggle_capacity {st : AppState} {row : KyFeatureProps}
    (h1 : st.selectedKeys.contains (versionKey row) = false)
    (h2 : 2 ≤ st.selectedKeys.length)
    (g : String → Int) (gf : FetchResult (List Nat)) (df : FetchResult WfsResponse) :
    toggleVersion g st row gf df = { st with toast := some capacityMsg } := by
  dsimp only [toggleVersion]
  rw [if_neg (by rw [h1]; exact Bool.false_ne_true), if_pos h2]

lemma toggle_add {st : AppState} {row : KyFeatureProps}
    (h1 : st.selectedKeys.contains (versionKey row) = false)
    (h2 : st.selectedKeys.length < 2)
    (g : String → Int) (gf : FetchResult (List Nat)) (df : FetchResult WfsResponse) :
    toggleVersion g st row gf df = toggleAdd g st row (versionKey row) gf df := by
  dsimp only [toggleVersion]
  rw [if_neg (by rw [h1]; exact Bool.false_ne_true), if_neg (by omega)]

lemma toggleAdd_httpError (g : String → Int) (st : AppState) (row : KyFeatureProps)
    (k : String) (s : Nat) (df : FetchResult WfsResponse) :
    toggleAdd g st row k (.httpError s) df =
      { st with error := some ("WFS error " ++ toString s) } := rfl

lemma toggleAdd_thrown (g : String → Int) (st : AppState) (row : KyFeatureProps)
    (k : String) (m : String) (df : FetchResult WfsResponse) :
    toggleAdd g st row k (.thrown m) df = { st with error := some m } := rfl

lemma toggleAdd_empty (g : String → Int) (st : AppState) (row : KyFeatureProps)
    (k : String) (df : FetchResult WfsResponse) :
    toggleAdd g st row k (.ok []) df =
      { st with error := some "Geomeetriat ei leitud." } := rfl

lemma toggleAdd_ok_proj (g : String → Int) (st : AppState) (row : KyFeatureProps)
    (k : String) (feats : List Nat) (hf : feats ≠ []) (df : FetchResult WfsResponse) :
    (toggleAdd g st row k (.ok feats) df).selectedKeys = st.selectedKeys ++ [k] ∧
    (toggleAdd g st row k (.ok feats) df).colorByKey =
      colorMapOf (st.selectedKeys ++ [k]) ∧
    (toggleAdd g st row k (.ok feats) df).vecFeatures =
      st.vecFeatures.map (recolor (colorMapOf (st.selectedKeys ++ [k]))) ++
        feats.map (fun gid => OlFeature.mk (some k) none gid) ∧
    (toggleAdd g st row k (.ok feats) df).toast = st.toast ∧
    (toggleAdd g st row k (.ok feats) df).rows = st.rows ∧
    (toggleAdd g st row k (.ok feats) df).popup = st.popup := by
  dsimp only [toggleAdd, assignColors]
  rw [if_neg (by simp [hf])]
  cases df <;> exact ⟨rfl, rfl, rfl, rfl, rfl, rfl⟩

lemma toggleAdd_ok_drawer (g : String → Int) (st : AppState) (row : KyFeatureProps)
    (k : String) (feats : List Nat) (hf : feats ≠ []) (s : Nat) (m : String) :
    (toggleAdd g st row k (.ok feats) (.httpError s)).drawer = st.drawer ∧
    (toggleAdd g st row k (.ok feats) (.httpError s)).error =
      some ("WFS error " ++ toString s) ∧
    (toggleAdd g st row k (.ok feats) (.thrown m)).drawer = st.drawer ∧
    (toggleAdd g st row k (.ok feats) (.thrown m)).error = some m := by
  have h' : ¬(feats.isEmpty = true) := by simp [hf]
  dsimp only [toggleAdd, assignColors]
  simp only [if_neg h']
  simp

lemma selInv_toggle {g : String → Int} {st : AppState} (row : KyFeatureProps)
    (gf : FetchResult (List Nat)) (df : FetchResult WfsResponse)
    (h : SelInv st) : SelInv (toggleVersion g st row gf df) := by
  obtain ⟨hlen, hnd, hcol, hfeat⟩ := h
  by_cases hc : st.selectedKeys.contains (versionKey row) = true
  · rw [toggle_already hc]
    constructor
    · rw [toggleRemove_sel]
      exact le_trans (List.length_filter_le _ _) hlen
    refine ⟨?_, ?_, ?_⟩
    · rw [toggleRemove_sel]
      exact hnd.filter _
    · rw [toggleRemove_color, toggleRemove_sel]
    · rw [toggleRemove_vec, toggleRemove_sel]
      intro f hf
      rw [List.mem_filter] at hf
      obtain ⟨hf1, hf2⟩ := hf
      rw [List.mem_map] at hf1
      obtain ⟨f0, hf0, rfl⟩ := hf1
      obtain ⟨k0, hk0, hk0mem⟩ := hfeat f0 hf0
      refine ⟨k0, by rw [recolor_key, hk0], ?_⟩
      rw [List.mem_filter]
      refine ⟨hk0mem, ?_⟩
      simp only [decide_eq_true_eq]
      intro hk0k
      rw [recolor_key, hk0, hk0k] at hf2
      simp at hf2
  · have hc' : st.selectedKeys.contains (versionKey row) = false := by
      simpa using hc
    by_cases hl : 2 ≤ st.selectedKeys.length
    · rw [toggle_capacity hc' hl]
      exact ⟨hlen, hnd, hcol, hfeat⟩
    · have hl' : st.selectedKeys.length < 2 := by omega
      rw [toggle_add hc' hl']
      have hmem : versionKey row ∉ st.selectedKeys := by
        simpa using hc'
      cases gf with
      | httpError s => rw [toggleAdd_httpError]; exact ⟨hlen, hnd, hcol, hfeat⟩
      | thrown m => rw [toggleAdd_thrown]; exact ⟨hlen, hnd, hcol, hfeat⟩
      | ok feats =>
        by_cases hfe : feats = []
        · subst hfe
          rw [toggleAdd_empty]
          exact ⟨hlen, hnd, hcol, hfeat⟩
        · obtain ⟨e1, e2, e3, _, _, _⟩ := toggleAdd_ok_proj g st row (versionKey row) feats hfe df
          constructor
          · rw [e1]
            simp only [List.length_append, List.length_singleton]
            omega
          refine ⟨?_, ?_, ?_⟩
          · rw [e1]
            simp only [List.nodup_append, List.nodup_singleton]
            exact ⟨hnd, by simp, by simpa using hmem⟩
          · rw [e2, e1]
          · rw [e3, e1]
            intro f hf
            rw [List.mem_append] at hf
            rcases hf with hf | hf
            · rw [List.mem_map] at hf
              obtain ⟨f0, hf0, rfl⟩ := hf
              obtain ⟨k0, hk0, hk0mem⟩ := hfeat f0 hf0
              exact ⟨k0, by rw [recolor_key, hk0], List.mem_append_left _ hk0mem⟩
            · rw [List.mem_map] at hf
              obtain ⟨gid, _, rfl⟩ := hf
              exact ⟨versionKey row, rfl, List.mem_append_right _ (by simp)⟩

/-- Every reachable state satisfies the structural selection invariant. -/
lemma selInv_reachable {g : String → Int} {st : AppState} (h : Reachable g st) :
    SelInv st := by
  induction h with
  | init => exact selInv_init
  | toggle row gf df _ ih => exact selInv_toggle row gf df ih
  | clear _ ih => exact selInv_clear ih
  | search o fr _ ih => exact selInv_search o fr ih
  | mapClick fr _ ih => exact selInv_mapClick fr ih

-- ======================================================================
-- Sortedness of the stable insertion sort under element-wise hypotheses
-- ======================================================================

lemma mem_insertS {α : Type} {le : α → α → Bool} {x a : α} {l : List α} :
    a ∈ insertS le x l ↔ a = x ∨ a ∈ l := by
  induction l with
  | nil => simp [insertS]
  | cons y ys ih =>
    by_cases h : le x y = true
    · rw [insertS, if_pos h]
      simp [or_comm, or_assoc, or_left_comm]
    · rw [insertS, if_neg h]
      simp [ih]
      tauto

lemma mem_sortJs {α : Type} {le : α → α → Bool} {a : α} {l : List α} :
    a ∈ sortJs le l ↔ a ∈ l := by
  induction l with
  | nil => simp [sortJs]
  | cons x xs ih =>
    rw [sortJs, mem_insertS, ih]
    simp

lemma insertS_pairwise {α : Type} {le : α → α → Bool} {x : α} {l : List α}
    (htot : ∀ y ∈ l, le x y = true ∨ le y x = true)
    (htrans : ∀ p ∈ x :: l, ∀ q ∈ x :: l, ∀ r ∈ x :: l,
      le p q = true → le q r = true → le p r = true)
    (hs : l.Pairwise (le · · = true)) :
    (insertS le x l).Pairwise (le · · = true) := by
  induction l with
  | nil => simp [insertS]
  | cons y ys ih =>
    rw [List.pairwise_cons] at hs
    by_cases hxy : le x y = true
    · rw [insertS, if_pos hxy]
      refine List.Pairwise.cons ?_ (List.Pairwise.cons hs.1 hs.2)
      intro z hz
      rcases List.mem_cons.mp hz with rfl | hz
      · exact hxy
      · exact htrans x (by simp) y (by simp) z (by simp [hz]) hxy (hs.1 z hz)
    · rw [insertS, if_neg hxy]
      refine List.Pairwise.cons ?_ ?_
      · intro z hz
        rcases mem_insertS.mp hz with rfl | hz
        · rcases htot y (by simp) with h | h
          · exact absurd h hxy
          · exact h
        · exact hs.1 z hz
      · refine ih (fun z hz => htot z (by simp [hz])) ?_ hs.2
        intro p hp q hq r hr
        have sub : ∀ w, w ∈ x :: ys → w ∈ x :: y :: ys := by
          intro w hw
          rcases List.mem_cons.mp hw with rfl | hw <;> simp [hw]
        exact htrans p (sub p hp) q (sub q hq) r (sub r hr)

lemma sortJs_pairwise {α : Type} {le : α → α → Bool} {l : List α}
    (htot : ∀ a ∈ l, ∀ b ∈ l, le a b = true ∨ le b a = true)
    (htrans : ∀ p ∈ l, ∀ q ∈ l, ∀ r ∈ l,
      le p q = true → le q r = true → le p r = true) :
    (sortJs le l).Pairwise (le · · = true) := by
  induction l with
  | nil => simp [sortJs]
  | cons x xs ih =>
    rw [sortJs]
    have sub : ∀ w, w ∈ x :: sortJs le xs → w ∈ x :: xs := by
      intro w hw
      rcases List.mem_cons.mp hw with rfl | hw
      · simp
      · simp [mem_sortJs.mp hw]
    refine insertS_pairwise ?_ ?_ ?_
    · intro y hy
      exact htot x (by simp) y (by simp [mem_sortJs.mp hy])
    · intro p hp q hq r hr
      exact htrans p (sub p hp) q (sub q hq) r (sub r hr)
    · exact ih (fun a ha b hb => htot a (by simp [ha]) b (by simp [hb]))
        (fun p hp q hq r hr => htrans p (by simp [hp]) q (by simp [hq]) r (by simp [hr]))

-- ======================================================================
-- The listing comparator on well-formed records
-- ======================================================================

/-- The `kehtiv_kuni` timestamp read by the comparator. -/
def kkT (g : String → Int) (r : KyFeatureProps) : Int := g (r.kehtiv_kuni.getD "")

/-- The `kehtiv_alates` timestamp read by the comparator. -/
def kaT (g : String → Int) (r : KyFeatureProps) : Int := g (r.kehtiv_alates.getD "")

/-- A well-formed version record as the feature service returns them: a
present, non-empty `kehtiv_alates` and a `kehtiv_kuni` that is either
`null` or a non-empty date string. -/
def GoodRec (r : KyFeatureProps) : Prop :=
  (∃ s, r.kehtiv_alates = some s ∧ s.data ≠ []) ∧
  (r.kehtiv_kuni = none ∨ ∃ s, r.kehtiv_kuni = some s ∧ s.data ≠ [])

lemma versionCmp_eq (g : String → Int) {a b : KyFeatureProps}
    (ha : GoodRec a) (hb : GoodRec b) :
    versionCmp g a b =
      if a.kehtiv_kuni = none ∧ ¬b.kehtiv_kuni = none then -1
      else if ¬a.kehtiv_kuni = none ∧ b.kehtiv_kuni = none then 1
      else if ¬a.kehtiv_kuni = none ∧ kkT g b - kkT g a ≠ 0 then kkT g b - kkT g a
      else kaT g b - kaT g a := by
  obtain ⟨⟨sa, hsa, hsane⟩, hka⟩ := ha
  obtain ⟨⟨sb, hsb, hsbne⟩, hkb⟩ := hb
  have htka : jsTruthyOpt a.kehtiv_alates = true := by
    rw [hsa]; simp [jsTruthyOpt, jsTruthyStr, hsane]
  have htkb : jsTruthyOpt b.kehtiv_alates = true := by
    rw [hsb]; simp [jsTruthyOpt, jsTruthyStr, hsbne]
  unfold versionCmp kkT kaT
  rcases hka with hka | ⟨ta, hta, htane⟩ <;> rcases hkb with hkb | ⟨tb, htb, htbne⟩
  · simp [hka, hkb, htka, htkb]
  · simp [hka, htb, fun h => Option.some_ne_none tb h]
  · simp [hta, hkb, fun h => Option.some_ne_none ta h]
  · have h1 : ¬(a.kehtiv_kuni = none) := by rw [hta]; exact Option.some_ne_none ta
    have h2 : ¬(b.kehtiv_kuni = none) := by rw [htb]; exact Option.some_ne_none tb
    have t1 : jsTruthyOpt a.kehtiv_kuni = true := by
      rw [hta]; simp [jsTruthyOpt, jsTruthyStr, htane]
    have t2 : jsTruthyOpt b.kehtiv_kuni = true := by
      rw [htb]; simp [jsTruthyOpt, jsTruthyStr, htbne]
    simp only [h1, h2, t1, t2, htka, htkb, false_and, and_false, if_false,
      not_false_iff, true_and, and_true, if_true]

lemma versionCmp_total (g : String → Int) {a b : KyFeatureProps}
    (ha : GoodRec a) (hb : GoodRec b) :
    versionCmp g a b ≤ 0 ∨ versionCmp g b a ≤ 0 := by
  rw [versionCmp_eq g ha hb, versionCmp_eq g hb ha]
  by_cases h1 : a.kehtiv_kuni = none <;> by_cases h2 : b.kehtiv_kuni = none <;>
    simp only [h1, h2, not_true, not_false_iff, true_and, and_true, false_and,
      and_false, if_true, if_false] <;> (try split_ifs) <;> omega

lemma versionCmp_trans (g : String → Int) {a b c : KyFeatureProps}
    (ha : GoodRec a) (hb : GoodRec b) (hc : GoodRec c)
    (hab : versionCmp g a b ≤ 0) (hbc : versionCmp g b c ≤ 0) :
    versionCmp g a c ≤ 0 := by
  rw [versionCmp_eq g ha hb] at hab
  rw [versionCmp_eq g hb hc] at hbc
  rw [versionCmp_eq g ha hc]
  by_cases h1 : a.kehtiv_kuni = none <;> by_cases h2 : b.kehtiv_kuni = none <;>
    by_cases h3 : c.kehtiv_kuni = none <;>
    simp only [h1, h2, h3, not_true, not_false_iff, true_and, and_true,
      false_and, and_false, if_true, if_false] at hab hbc ⊢ <;>
    (try split_ifs at hab hbc ⊢) <;> omega

/-- The order that claim C6 asserts of the sorted listing: active rows
(`kehtiv_kuni = null`) come before closed rows; closed rows are ordered by
descending `kehtiv_kuni` timestamp; rows tied on `kehtiv_kuni` (both active,
or both closed with equal timestamps) are ordered by descending
`kehtiv_alates` timestamp. -/
def listingSortedRel (g : String → Int) (a b : KyFeatureProps) : Prop :=
  (b.kehtiv_kuni = none → a.kehtiv_kuni = none) ∧
  (a.kehtiv_kuni ≠ none → b.kehtiv_kuni ≠ none → kkT g b ≤ kkT g a) ∧
  (((a.kehtiv_kuni = none ∧ b.kehtiv_kuni = none) ∨
    (a.kehtiv_kuni ≠ none ∧ b.kehtiv_kuni ≠ none ∧ kkT g b = kkT g a)) →
      kaT g b ≤ kaT g a)

lemma versionCmp_le_rel (g : String → Int) {a b : KyFeatureProps}
    (ha : GoodRec a) (hb : GoodRec b) (h : versionCmp g a b ≤ 0) :
    listingSortedRel g a b := by
  rw [versionCmp_eq g ha hb] at h
  unfold listingSortedRel
  by_cases h1 : a.kehtiv_kuni = none <;> by_cases h2 : b.kehtiv_kuni = none
  · rw [if_neg (fun hx => hx.2 h2), if_neg (fun hx => hx.1 h1),
      if_neg (fun hx => hx.1 h1)] at h
    exact ⟨fun _ => h1, fun hx _ => absurd h1 hx, fun _ => by omega⟩
  · refine ⟨fun hb' => absurd hb' h2, fun hx _ => absurd h1 hx, ?_⟩
    intro hor
    rcases hor with ⟨_, hb'⟩ | ⟨hx, _, _⟩
    · exact absurd hb' h2
    · exact absurd h1 hx
  · rw [if_neg (fun hx => h1 hx.1), if_pos ⟨h1, h2⟩] at h
    exact absurd h (by norm_num)
  · rw [if_neg (fun hx => h1 hx.1), if_neg (fun hx => h2 hx.2)] at h
    refine ⟨fun hb' => absurd hb' h2, fun _ _ => ?_, ?_⟩
    · by_cases hd : kkT g b - kkT g a = 0
      · omega
      · rw [if_pos ⟨h1, hd⟩] at h
        omega
    · intro hor
      rcases hor with ⟨hx, _⟩ | ⟨_, _, heq⟩
      · exact absurd hx h1
      · rw [if_neg (fun hx => hx.2 (by omega))] at h
        omega

-- ======================================================================
-- Characterisation of the identifier pattern
-- ======================================================================

lemma matchDigits_some_iff (n : Nat) (l r : List Char) :
    matchDigits n l = some r ↔
      ∃ ds, l = ds ++ r ∧ ds.length = n ∧ ds.all Char.isDigit = true := by
  induction n generalizing l with
  | zero =>
    simp only [matchDigits, Option.some_inj]
    constructor
    · rintro rfl
      exact ⟨[], rfl, rfl, rfl⟩
    · rintro ⟨ds, rfl, hlen, _⟩
      rw [List.length_eq_zero] at hlen
      subst hlen
      rfl
  | succ n ih =>
    cases l with
    | nil =>
      simp only [matchDigits]
      constructor
      · intro h
        exact absurd h (by simp)
      · rintro ⟨ds, hds, hlen, _⟩
        cases ds with
        | nil => simp at hlen
        | cons d ds => simp at hds
    | cons c l =>
      rw [matchDigits]
      by_cases hc : c.isDigit = true
      · rw [if_pos hc, ih]
        constructor
        · rintro ⟨ds, rfl, hlen, hdig⟩
          exact ⟨c :: ds, rfl, by simp [hlen], by simp [hc, hdig]⟩
        · rintro ⟨ds, hds, hlen, hdig⟩
          cases ds with
          | nil => simp at hlen
          | cons d ds =>
            rw [List.cons_append] at hds
            injection hds with h1 h2
            subst h1
            refine ⟨ds, h2, by simpa using hlen, ?_⟩
            simp only [List.all_cons, Bool.and_eq_true] at hdig
            exact hdig.2
      · rw [if_neg hc]
        constructor
        · intro h
          exact absurd h (by simp)
        · rintro ⟨ds, hds, hlen, hdig⟩
          cases ds with
          | nil => simp at hlen
          | cons d ds =>
            rw [List.cons_append] at hds
            injection hds with h1 _
            subst h1
            simp only [List.all_cons, Bool.and_eq_true] at hdig
            exact absurd hdig.1 hc

/-- The language of `^\d{5}:\d{3}:\d{4}$` on a character list. -/
def TunnusShape (l : List Char) : Prop :=
  ∃ a b c : List Char,
    l = a ++ [':'] ++ b ++ [':'] ++ c ∧
    a.length = 5 ∧ b.length = 3 ∧ c.length = 4 ∧
    (a ++ b ++ c).all Char.isDigit = true

lemma TUNNUS_RE_test_iff (s : String) :
    TUNNUS_RE_test s = true ↔ TunnusShape s.data := by
  constructor
  · intro h
    rw [TUNNUS_RE_test] at h
    repeat' split at h
    all_goals simp at h
    rename_i x2 u1 cc1 r1 e1 hc1 x1 u2 cc2 r2 e2 hc2 x0 e3
    subst hc1
    subst hc2
    obtain ⟨a, ha, hal, had⟩ := (matchDigits_some_iff _ _ _).mp e1
    obtain ⟨b, hb, hbl, hbd⟩ := (matchDigits_some_iff _ _ _).mp e2
    obtain ⟨c, hc, hcl, hcd⟩ := (matchDigits_some_iff _ _ _).mp e3
    rw [List.append_nil] at hc
    subst hc
    refine ⟨a, b, r2, ?_, hal, hbl, hcl, ?_⟩
    · rw [ha, hb]
      simp
    · simp only [List.all_append, Bool.and_eq_true]
      exact ⟨⟨had, hbd⟩, hcd⟩
  · rintro ⟨a, b, c, hs, hal, hbl, hcl, hdig⟩
    have hd : a.all Char.isDigit = true ∧ b.all Char.isDigit = true ∧
        c.all Char.isDigit = true := by
      simpa [List.all_append, Bool.and_eq_true, and_assoc] using hdig
    have e1 : matchDigits 5 s.data = some (':' :: (b ++ ':' :: c)) :=
      (matchDigits_some_iff _ _ _).mpr ⟨a, by rw [hs]; simp, hal, hd.1⟩
    have e2 : matchDigits 3 (b ++ ':' :: c) = some (':' :: c) :=
      (matchDigits_some_iff _ _ _).mpr ⟨b, by simp, hbl, hd.2.1⟩
    have e3 : matchDigits 4 c = some [] :=
      (matchDigits_some_iff _ _ _).mpr ⟨c, by simp, hcl, hd.2.2⟩
    rw [TUNNUS_RE_test, e1]
    dsimp only
    rw [if_pos rfl, e2]
    dsimp only
    rw [if_pos rfl, e3]

-- ======================================================================
-- Shape of the initial as-of date
-- ======================================================================

lemma digitCh_isDigit (k : Nat) : (digitCh k).isDigit = true := by
  unfold digitCh
  have h : k % 10 < 10 := Nat.mod_lt _ (by norm_num)
  interval_cases hk : k % 10 <;> decide

lemma toISODateOfMs_data (ms : Int) :
    (toISODateOfMs ms).data =
      [digitCh ((civilFromDays (Int.fdiv ms 86400000)).1.toNat / 1000),
       digitCh ((civilFromDays (Int.fdiv ms 86400000)).1.toNat / 100),
       digitCh ((civilFromDays (Int.fdiv ms 86400000)).1.toNat / 10),
       digitCh (civilFromDays (Int.fdiv ms 86400000)).1.toNat, '-',
       digitCh ((civilFromDays (Int.fdiv ms 86400000)).2.1 / 10),
       digitCh (civilFromDays (Int.fdiv ms 86400000)).2.1, '-',
       digitCh ((civilFromDays (Int.fdiv ms 86400000)).2.2 / 10),
       digitCh (civilFromDays (Int.fdiv ms 86400000)).2.2] := rfl

lemma initAsOf_shape (now off : Int) :
    ∃ y1 y2 y3 y4 m1 m2 d1 d2 : Char,
      (initAsOf now off).data = [y1, y2, y3, y4, '-', m1, m2, '-', d1, d2] ∧
      y1.isDigit = true ∧ y2.isDigit = true ∧ y3.isDigit = true ∧
      y4.isDigit = true ∧ m1.isDigit = true ∧ m2.isDigit = true ∧
      d1.isDigit = true ∧ d2.isDigit = true :=
  ⟨_, _, _, _, _, _, _, _, toISODateOfMs_data _, digitCh_isDigit _,
    digitCh_isDigit _, digitCh_isDigit _, digitCh_isDigit _, digitCh_isDigit _,
    digitCh_isDigit _, digitCh_isDigit _, digitCh_isDigit _⟩

lemma initAsOf_truthy (now off : Int) :
    initAsOf now off ≠ "" ∧ jsTruthyStr (initAsOf now off) = true := by
  obtain ⟨y1, y2, y3, y4, m1, m2, d1, d2, hdata, _⟩ := initAsOf_shape now off
  constructor
  · intro he
    have : (initAsOf now off).data = [] := by rw [he]
    rw [hdata] at this
    simp at this
  · rw [jsTruthyStr, hdata]
    rfl

-- ======================================================================
-- Small-case colour map lemmas
-- ======================================================================

lemma colorMapOf_nil : colorMapOf [] = fun _ => none := rfl

lemma colorMapOf_one (a s : String) :
    colorMapOf [a] s = if s = a then some "#22c55e" else none := rfl

lemma colorMapOf_two (a b s : String) :
    colorMapOf [a, b] s =
      if s = b then some "#3b82f6" else if s = a then some "#22c55e" else none := rfl

-- Sample data used by concrete executions of the model.

/-- A sample active version row (`kehtiv_kuni = null`). -/
def sampleRow1 : KyFeatureProps :=
  { tunnus := "a", kehtiv_alates := some "1", kehtiv_kuni := none }

/-- A sample closed version row. -/
def sampleRow2 : KyFeatureProps :=
  { tunnus := "b", kehtiv_alates := some "2", kehtiv_kuni := some "3" }

/-- A trivial stand-in for the external `Date.getTime` collaborator. -/
def g0 : String → Int := fun _ => 0

-- ======================================================================
-- Claim theorems
-- ======================================================================

/-- C7: with an empty or absent as-of date, the attribute-list query's CQL
filter is exactly the identifier equality and the point query's filter is
exactly the `INTERSECTS` predicate — no validity predicate is emitted, and
the `asOf || undefined` collapse at the call sites behaves the same way. -/
theorem spec_c7_empty_date :
    (∀ t : String,
      buildWfsUrl_cql t none = "tunnus = " ++ qstr ++ escapeQuotes t ++ qstr) ∧
    (∀ t : String,
      buildWfsUrl_cql t (some "") = "tunnus = " ++ qstr ++ escapeQuotes t ++ qstr) ∧
    (∀ t : String,
      buildWfsUrl_cql t (jsOrUndefined "") =
        "tunnus = " ++ qstr ++ escapeQuotes t ++ qstr) ∧
    (∀ x y : Int, buildWfsUrl_byPoint_cql x y none = intersectsPart x y) ∧
    (∀ x y : Int, buildWfsUrl_byPoint_cql x y (some "") = intersectsPart x y) ∧
    (∀ x y : Int,
      buildWfsUrl_byPoint_cql x y (jsOrUndefined "") = intersectsPart x y) :=
  ⟨fun _ => rfl, fun _ => rfl, fun _ => rfl, fun _ _ => rfl, fun _ _ => rfl,
    fun _ _ => rfl⟩

/-- C8: point identification reports the first returned feature's `tunnus`
(and nothing on a miss), swallows every fetch failure silently — the error
and toast cells are untouched — and never changes the selection state. -/
theorem spec_c8_point_identify (st : AppState) (fr : FetchResult WfsResponse) :
    (handleMapClick st fr).selectedKeys = st.selectedKeys ∧
    (handleMapClick st fr).colorByKey = st.colorByKey ∧
    (handleMapClick st fr).vecFeatures = st.vecFeatures ∧
    (handleMapClick st fr).drawer = st.drawer ∧
    (handleMapClick st fr).error = st.error ∧
    (handleMapClick st fr).toast = st.toast ∧
    (handleMapClick st fr).popup =
      (match fr with
       | .ok json => (json.features.head?).map (fun f => f.properties.tunnus)
       | .httpError _ => none
       | .thrown _ => none) := by
  obtain ⟨e1, e2, e3, e4, e5, e6⟩ := handleMapClick_proj st fr
  refine ⟨e1, e2, e3, e4, e5, e6, ?_⟩
  cases fr with
  | ok json =>
    rw [handleMapClick]
    cases h : json.features.head? with
    | some feat => simp [h]
    | none => simp [h]
  | httpError s => rfl
  | thrown m => rfl

/-- C9: the submission gate of `doSearch` accepts exactly the strings whose
whitespace-trimmed form is five digits, a colon, three digits, a colon and
four digits; in particular the empty string is rejected. -/
theorem spec_c9_validate :
    (∀ s : String, doSearchValid s none = true ↔ TunnusShape (jsTrim s).data) ∧
    doSearchValid "" none = false :=
  ⟨fun s => TUNNUS_RE_test_iff (jsTrim s), by decide⟩

/-- C3: after any sequence of selection operations at most two keys are
selected, and a toggle-add on an unselected record with two keys already
selected only sets the capacity toast — every other state cell, selection
included, is left exactly as it was. -/
theorem spec_c3_cardinality (g : String → Int) :
    (∀ st : AppState, Reachable g st → st.selectedKeys.length ≤ 2) ∧
    (∀ (st : AppState) (row : KyFeatureProps) (gf : FetchResult (List Nat))
        (df : FetchResult WfsResponse),
      st.selectedKeys.contains (versionKey row) = false →
      st.selectedKeys.length = 2 →
      toggleVersion g st row gf df = { st with toast := some capacityMsg }) := by
  constructor
  · intro st h
    exact (selInv_reachable h).1
  · intro st row gf df h1 h2
    exact toggle_capacity h1 (by omega) g gf df

/-- C3 witness: the invariant at the initial state, and the capacity
rejection on a concrete two-key state. -/
theorem spec_c3_witness :
    initState.selectedKeys.length ≤ 2 ∧
    toggleVersion g0 { initState with selectedKeys := ["x", "y"] } sampleRow1
        (.ok [0]) (.ok ⟨[]⟩) =
      { initState with selectedKeys := ["x", "y"], toast := some capacityMsg } :=
  ⟨(spec_c3_cardinality g0).1 initState Reachable.init,
   (spec_c3_cardinality g0).2 { initState with selectedKeys := ["x", "y"] }
     sampleRow1 (.ok [0]) (.ok ⟨[]⟩) (by decide) (by decide)⟩

/-- C4: at every reachable state the colour assignment sends the ordered
selected keys exactly onto the first `|selection|` palette entries (and
nothing else is coloured, the keys being distinct); and removing the first
of two selected keys leaves the remaining key recoloured to the palette's
first colour. -/
theorem spec_c4_color_bijection (g : String → Int) (st : AppState)
    (h : Reachable g st) :
    st.selectedKeys.map st.colorByKey =
      (COLORS.take st.selectedKeys.length).map some ∧
    (∀ s, s ∉ st.selectedKeys → st.colorByKey s = none) ∧
    st.selectedKeys.Nodup ∧
    (∀ (row : KyFeatureProps) (k2 : String) (gf : FetchResult (List Nat))
        (df : FetchResult WfsResponse),
      st.selectedKeys = [versionKey row, k2] →
      (toggleVersion g st row gf df).selectedKeys = [k2] ∧
      (toggleVersion g st row gf df).colorByKey k2 = some "#22c55e") := by
  obtain ⟨hlen, hnd, hcol, _⟩ := selInv_reachable h
  have main2 : ∀ (row : KyFeatureProps) (k2 : String) (gf : FetchResult (List Nat))
      (df : FetchResult WfsResponse),
      st.selectedKeys = [versionKey row, k2] →
      (toggleVersion g st row gf df).selectedKeys = [k2] ∧
      (toggleVersion g st row gf df).colorByKey k2 = some "#22c55e" := by
    intro row k2 gf df hsel
    have hne : versionKey row ≠ k2 := by
      rw [hsel] at hnd
      simpa using hnd
    have hcont : st.selectedKeys.contains (versionKey row) = true := by
      rw [hsel]
      simp
    rw [toggle_already hcont]
    constructor
    · rw [toggleRemove_sel, hsel]
      simp [List.filter, hne.symm]
    · rw [toggleRemove_color, hsel]
      have : ([versionKey row, k2].filter (fun x => x ≠ versionKey row)) = [k2] := by
        simp [List.filter, hne.symm]
      rw [this, colorMapOf_one, if_pos rfl]
  refine ⟨?_, ?_, hnd, main2⟩
  · rcases hk : st.selectedKeys with _ | ⟨a, _ | ⟨b, _ | ⟨c, tl⟩⟩⟩
    · simp [hcol, hk]
    · rw [hcol, hk]
      simp [colorMapOf_one, COLORS]
    · have hab : a ≠ b := by
        rw [hk] at hnd
        rcases List.pairwise_cons.mp hnd with ⟨h1, _⟩
        exact h1 b (by simp)
      rw [hcol, hk]
      simp [colorMapOf_two, COLORS, hab]
    · rw [hk] at hlen
      simp at hlen
  · intro s hs
    rcases hk : st.selectedKeys with _ | ⟨a, _ | ⟨b, _ | ⟨c, tl⟩⟩⟩ <;> rw [hk] at hs
    · rw [hcol, hk, colorMapOf_nil]
    · rw [hcol, hk, colorMapOf_one, if_neg (by simpa using hs)]
    · simp only [List.mem_cons, List.not_mem_nil, or_false, not_or] at hs
      rw [hcol, hk, colorMapOf_two, if_neg hs.2, if_neg hs.1]
    · rw [hk] at hlen
      simp at hlen

/-- The state after adding `sampleRow1` to the empty selection. -/
def wst1 : AppState := toggleVersion g0 initState sampleRow1 (.ok [0]) (.ok ⟨[]⟩)

/-- The state after further adding `sampleRow2` (two selected keys). -/
def wst2 : AppState := toggleVersion g0 wst1 sampleRow2 (.ok [1]) (.ok ⟨[]⟩)

lemma wst2_reachable : Reachable g0 wst2 :=
  Reachable.toggle sampleRow2 (.ok [1]) (.ok ⟨[]⟩)
    (Reachable.toggle sampleRow1 (.ok [0]) (.ok ⟨[]⟩) Reachable.init)

/-- C4 witness: the colour bijection at a concrete two-key state, and the
recolouring of the surviving key after removing the first one. -/
theorem spec_c4_witness :
    wst2.selectedKeys.map wst2.colorByKey =
      (COLORS.take wst2.selectedKeys.length).map some ∧
    (toggleVersion g0 wst2 sampleRow1 (.ok []) (.ok ⟨[]⟩)).colorByKey
      (versionKey sampleRow2) = some "#22c55e" := by
  obtain ⟨h1, _, _, h4⟩ := spec_c4_color_bijection g0 wst2 wst2_reachable
  exact ⟨h1, (h4 sampleRow1 (versionKey sampleRow2) (.ok []) (.ok ⟨[]⟩)
    (by decide)).2⟩

/-- C1 counterexample: with the geometry fetch succeeding and the subsequent
all-properties fetch failing with HTTP 500, the toggle-add leaves a partial
add behind — the key is selected, coloured and its geometry stored — so the
operation does not leave the selection state unchanged as claimed. -/
theorem spec_c1_cex :
    (toggleVersion g0 initState sampleRow1 (.ok [0])
        (.httpError 500)).selectedKeys ≠ initState.selectedKeys ∧
    (toggleVersion g0 initState sampleRow1 (.ok [0])
        (.httpError 500)).vecFeatures ≠ initState.vecFeatures ∧
    (toggleVersion g0 initState sampleRow1 (.ok [0])
        (.httpError 500)).colorByKey (versionKey sampleRow1) ≠
      initState.colorByKey (versionKey sampleRow1) ∧
    (toggleVersion g0 initState sampleRow1 (.ok [0])
        (.httpError 500)).error = some ("WFS error " ++ toString 500) := by
  refine ⟨by decide, by decide, by decide, by decide⟩

/-- C1 amended: a failing geometry fetch (HTTP error, network error, or zero
features) changes nothing but the error message; a failure of the subsequent
all-properties fetch, however, happens after the add was applied — the key
is appended (and colours and geometry with it) while only the drawer stays
unchanged. -/
theorem spec_c1_amended (g : String → Int) (st : AppState) (row : KyFeatureProps)
    (hk : st.selectedKeys.contains (versionKey row) = false)
    (hl : st.selectedKeys.length < 2) :
    (∀ (s : Nat) (df : FetchResult WfsResponse),
      toggleVersion g st row (.httpError s) df =
        { st with error := some ("WFS error " ++ toString s) }) ∧
    (∀ (m : String) (df : FetchResult WfsResponse),
      toggleVersion g st row (.thrown m) df = { st with error := some m }) ∧
    (∀ df : FetchResult WfsResponse,
      toggleVersion g st row (.ok []) df =
        { st with error := some "Geomeetriat ei leitud." }) ∧
    (∀ (feats : List Nat), feats ≠ [] → ∀ s : Nat,
      (toggleVersion g st row (.ok feats) (.httpError s)).selectedKeys =
        st.selectedKeys ++ [versionKey row] ∧
      (toggleVersion g st row (.ok feats) (.httpError s)).drawer = st.drawer ∧
      (toggleVersion g st row (.ok feats) (.httpError s)).error =
        some ("WFS error " ++ toString s)) ∧
    (∀ (feats : List Nat), feats ≠ [] → ∀ m : String,
      (toggleVersion g st row (.ok feats) (.thrown m)).selectedKeys =
        st.selectedKeys ++ [versionKey row] ∧
      (toggleVersion g st row (.ok feats) (.thrown m)).drawer = st.drawer ∧
      (toggleVersion g st row (.ok feats) (.thrown m)).error = some m) := by
  refine ⟨?_, ?_, ?_, ?_, ?_⟩
  · intro s df
    rw [toggle_add hk hl, toggleAdd_httpError]
  · intro m df
    rw [toggle_add hk hl, toggleAdd_thrown]
  · intro df
    rw [toggle_add hk hl, toggleAdd_empty]
  · intro feats hf s
    rw [toggle_add hk hl]
    obtain ⟨e1, _, _, _, _, _⟩ := toggleAdd_ok_proj g st row (versionKey row)
      feats hf (.httpError s)
    obtain ⟨d1, d2, _, _⟩ := toggleAdd_ok_drawer g st row (versionKey row)
      feats hf s ""
    exact ⟨e1, d1, d2⟩
  · intro feats hf m
    rw [toggle_add hk hl]
    obtain ⟨e1, _, _, _, _, _⟩ := toggleAdd_ok_proj g st row (versionKey row)
      feats hf (.thrown m)
    obtain ⟨_, _, d3, d4⟩ := toggleAdd_ok_drawer g st row (versionKey row)
      feats hf 0 m
    exact ⟨e1, d3, d4⟩

/-- C1 witness: the amended statement applied at the initial state: a failed
geometry fetch only records the error, and a failed detail fetch leaves the
appended key behind. -/
theorem spec_c1_witness :
    toggleVersion g0 initState sampleRow1 (.httpError 404) (.ok ⟨[]⟩) =
      { initState with error := some ("WFS error " ++ toString 404) } ∧
    (toggleVersion g0 initState sampleRow1 (.ok [0])
        (.httpError 500)).selectedKeys =
      initState.selectedKeys ++ [versionKey sampleRow1] := by
  obtain ⟨h1, _, _, h4, _⟩ :=
    spec_c1_amended g0 initState sampleRow1 (by decide) (by decide)
  exact ⟨h1 404 (.ok ⟨[]⟩), (h4 [0] (by decide) 500).1⟩

/-- C5 counterexample: with two versions selected, toggling the first one
off and on again (all fetches succeeding) does not restore the previous
state: the re-added key moves to the end of the ordered selection, so the
orders differ and the remaining key's colour has changed. -/
theorem spec_c5_cex :
    (toggleVersion g0 (toggleVersion g0 wst2 sampleRow1 (.ok []) (.ok ⟨[]⟩))
        sampleRow1 (.ok [7]) (.ok ⟨[]⟩)).selectedKeys ≠ wst2.selectedKeys ∧
    (toggleVersion g0 (toggleVersion g0 wst2 sampleRow1 (.ok []) (.ok ⟨[]⟩))
        sampleRow1 (.ok [7]) (.ok ⟨[]⟩)).colorByKey (versionKey sampleRow2) ≠
      wst2.colorByKey (versionKey sampleRow2) := by
  refine ⟨by decide, by decide⟩

/-- C5 amended: when the toggled record's key is **not** already selected,
`toggle(r); toggle(r)` (the add's fetches succeeding) restores the selected
keys, the colour assignment, and the geometry store's key/geometry content
exactly (the features' cached colour fields may differ).  When the key is
already selected, re-adding appends it at the end, so with two selections
the order — and with it the colours — can differ (see the counterexample);
only the key set and geometry membership return. -/
theorem spec_c5_amended (g : String → Int) (st : AppState) (row : KyFeatureProps)
    (feats : List Nat) (dets : WfsResponse) (gf2 : FetchResult (List Nat))
    (df2 : FetchResult WfsResponse) (hr : Reachable g st)
    (hk : st.selectedKeys.contains (versionKey row) = false)
    (hf : feats ≠ []) :
    (toggleVersion g (toggleVersion g st row (.ok feats) (.ok dets)) row gf2
        df2).selectedKeys = st.selectedKeys ∧
    (toggleVersion g (toggleVersion g st row (.ok feats) (.ok dets)) row gf2
        df2).colorByKey = st.colorByKey ∧
    (toggleVersion g (toggleVersion g st row (.ok feats) (.ok dets)) row gf2
        df2).vecFeatures.map (fun f => (f.key, f.geomId)) =
      st.vecFeatures.map (fun f => (f.key, f.geomId)) := by
  obtain ⟨hlen, hnd, hcol, hfeat⟩ := selInv_reachable hr
  have hmem : versionKey row ∉ st.selectedKeys := by simpa using hk
  by_cases hl : 2 ≤ st.selectedKeys.length
  · rw [toggle_capacity hk hl]
    rw [@toggle_capacity { st with toast := some capacityMsg } row hk hl g gf2 df2]
    exact ⟨rfl, rfl, rfl⟩
  · have hl' : st.selectedKeys.length < 2 := by omega
    rw [toggle_add hk hl']
    obtain ⟨e1, e2, e3, _, _, _⟩ :=
      toggleAdd_ok_proj g st row (versionKey row) feats hf (.ok dets)
    set st1 := toggleAdd g st row (versionKey row) (.ok feats) (.ok dets) with hst1
    have hcont1 : st1.selectedKeys.contains (versionKey row) = true := by
      rw [e1]
      simp
    rw [toggle_already hcont1]
    have hfilter : (st.selectedKeys ++ [versionKey row]).filter
        (fun x => x ≠ versionKey row) = st.selectedKeys := by
      rw [List.filter_append]
      have h2 : List.filter (fun x => decide (x ≠ versionKey row))
          [versionKey row] = [] := by simp
      have h1 : List.filter (fun x => decide (x ≠ versionKey row))
          st.selectedKeys = st.selectedKeys := by
        rw [List.filter_eq_self]
        intro x hx
        simp only [decide_eq_true_eq]
        intro hxk
        exact hmem (hxk ▸ hx)
      rw [h1, h2, List.append_nil]
    refine ⟨?_, ?_, ?_⟩
    · rw [toggleRemove_sel, e1, hfilter]
    · rw [toggleRemove_color, e1, hfilter, hcol]
    · rw [toggleRemove_vec, e1, e3, hfilter]
      rw [List.map_append, List.filter_append]
      have hnew : List.filter (fun f => decide (f.key ≠ some (versionKey row)))
          ((feats.map (fun gid => OlFeature.mk (some (versionKey row)) none gid)).map
            (recolor (colorMapOf st.selectedKeys))) = [] := by
        rw [List.filter_eq_nil_iff]
        intro f hf'
        simp only [List.mem_map] at hf'
        obtain ⟨f0, ⟨gid, _, rfl⟩, rfl⟩ := hf'
        simp [recolor_key]
      have hold : List.filter (fun f => decide (f.key ≠ some (versionKey row)))
          ((st.vecFeatures.map
            (recolor (colorMapOf (st.selectedKeys ++ [versionKey row])))).map
            (recolor (colorMapOf st.selectedKeys))) =
          (st.vecFeatures.map
            (recolor (colorMapOf (st.selectedKeys ++ [versionKey row])))).map
            (recolor (colorMapOf st.selectedKeys)) := by
        rw [List.filter_eq_self]
        intro f hf'
        simp only [List.mem_map] at hf'
        obtain ⟨f1, ⟨f0, hf0, rfl⟩, rfl⟩ := hf'
        obtain ⟨k0, hk0, hk0mem⟩ := hfeat f0 hf0
        simp only [decide_eq_true_eq, recolor_key, hk0]
        intro hcontra
        injection hcontra with hcontra
        exact hmem (hcontra ▸ hk0mem)
      rw [hnew, hold, List.append_nil, List.map_map, List.map_map]
      simp [Function.comp, recolor_key, recolor_geomId]

/-- C5 witness: the amended statement applied at the initial state. -/
theorem spec_c5_witness :
    (toggleVersion g0 (toggleVersion g0 initState sampleRow1 (.ok [0])
        (.ok ⟨[]⟩)) sampleRow1 (.ok []) (.ok ⟨[]⟩)).selectedKeys =
      initState.selectedKeys ∧
    (toggleVersion g0 (toggleVersion g0 initState sampleRow1 (.ok [0])
        (.ok ⟨[]⟩)) sampleRow1 (.ok []) (.ok ⟨[]⟩)).colorByKey =
      initState.colorByKey := by
  obtain ⟨h1, h2, _⟩ := spec_c5_amended g0 initState sampleRow1 [0] ⟨[]⟩
    (.ok []) (.ok ⟨[]⟩) Reachable.init (by decide) (by decide)
  exact ⟨h1, h2⟩

/-- C2 counterexample: the as-of date is interpolated into the attribute
query's filter verbatim — a date containing a single quote reaches the
predicate unescaped, and the service's literal lexer then reads part of the
intended predicate text as a string literal (filter injection), contrary to
the claim that every embedded literal has its quotes doubled. -/
theorem spec_c2_cex :
    buildWfsUrl_cql "12345:001:0001" (some ("x" ++ qstr ++ "y")) =
      "tunnus = " ++ qstr ++ "12345:001:0001" ++ qstr ++
        " AND kehtiv_alates <= " ++ qstr ++ ("x" ++ qstr ++ "y") ++ qstr ++
        " AND (kehtiv_kuni IS NULL OR kehtiv_kuni > " ++ qstr ++
        ("x" ++ qstr ++ "y") ++ qstr ++ ")" ∧
    lexLiterals (buildWfsUrl_cql "12345:001:0001" (some ("x" ++ qstr ++ "y"))) =
      some ["12345:001:0001", "x",
        " AND (kehtiv_kuni IS NULL OR kehtiv_kuni > ", "y"] := by
  refine ⟨by decide, by decide⟩

/-- C2 amended: the identifier literal and the exact validity bounds of the
geometry query are escaped — for **every** input, quote-bearing or not, the
literal lexer recovers exactly the input strings; but the as-of date in the
attribute-list and point queries is embedded verbatim, so for it the
guarantee only holds when the date contains no quote. -/
theorem spec_c2_amended :
    (∀ t : String, lexLiterals (buildWfsUrl_allProps_cql t) = some [t]) ∧
    (∀ t : String, lexLiterals (buildWfsUrl_cql t none) = some [t]) ∧
    (∀ (t : String) (ka kk : Option String), jsTruthyOpt kk = true →
      lexLiterals (buildWfsUrl_fullByVersion_cql t ka kk) =
        some [t, ka.getD "", kk.getD ""]) ∧
    (∀ (t : String) (ka kk : Option String), jsTruthyOpt kk = false →
      lexLiterals (buildWfsUrl_fullByVersion_cql t ka kk) =
        some [t, ka.getD ""]) ∧
    (∀ t d : String, squote ∉ d.data → jsTruthyStr d = true →
      lexLiterals (buildWfsUrl_cql t (some d)) = some [t, d, d]) ∧
    (∀ x y : Int, lexLiterals (buildWfsUrl_byPoint_cql x y none) = some []) ∧
    (∀ (x y : Int) (d : String), squote ∉ d.data → jsTruthyStr d = true →
      lexLiterals (buildWfsUrl_byPoint_cql x y (some d)) = some [d, d]) :=
  ⟨lexLiterals_allProps, lexLiterals_attr_noDate,
   fun t ka kk h => lexLiterals_fullByVersion_kk t ka kk h,
   fun t ka kk h => lexLiterals_fullByVersion_null t ka kk h,
   fun t d hd hne => lexLiterals_attr_date t d hd hne,
   lexLiterals_byPoint_noDate,
   fun x y d hd hne => lexLiterals_byPoint_date x y d hd hne⟩

/-- C2 witness: escaping verified on a quote-bearing identifier, and the
quote-free-date case of the attribute query at concrete inputs. -/
theorem spec_c2_witness :
    lexLiterals (buildWfsUrl_allProps_cql ("a" ++ qstr ++ "b")) =
      some ["a" ++ qstr ++ "b"] ∧
    lexLiterals (buildWfsUrl_cql "12345:001:0001" (some "2020-01-01")) =
      some ["12345:001:0001", "2020-01-01", "2020-01-01"] := by
  obtain ⟨h1, _, _, _, h5, _, _⟩ := spec_c2_amended
  exact ⟨h1 ("a" ++ qstr ++ "b"),
    h5 "12345:001:0001" "2020-01-01" (by decide) (by decide)⟩

/-- C6: for any list of well-formed version records (present non-empty
`kehtiv_alates`, `kehtiv_kuni` null or a non-empty date), the listing sort
places every active record before every closed one, orders closed records
by descending `kehtiv_kuni` timestamp, and orders records tied on
`kehtiv_kuni` by descending `kehtiv_alates` timestamp. -/
theorem spec_c6_listing_sort (g : String → Int) (items : List KyFeatureProps)
    (hgood : ∀ r ∈ items, GoodRec r) :
    (sortVersions g items).Pairwise (listingSortedRel g) := by
  have hmemS : ∀ r ∈ sortVersions g items, GoodRec r := fun r hr =>
    hgood r (mem_sortJs.mp hr)
  have hp : (sortVersions g items).Pairwise
      (fun a b => (fun a b => decide (versionCmp g a b ≤ 0)) a b = true) := by
    apply sortJs_pairwise
    · intro a ha b hb
      rcases versionCmp_total g (hgood a ha) (hgood b hb) with h | h
      · exact Or.inl (decide_eq_true h)
      · exact Or.inr (decide_eq_true h)
    · intro p hp q hq r hr h1 h2
      exact decide_eq_true (versionCmp_trans g (hgood p hp) (hgood q hq)
        (hgood r hr) (of_decide_eq_true h1) (of_decide_eq_true h2))
  refine List.Pairwise.imp_of_mem ?_ hp
  intro a b ha hb hle
  exact versionCmp_le_rel g (hmemS a ha) (hmemS b hb) (of_decide_eq_true hle)

/-- C6 witness: the sorted-order property at a concrete two-element list,
with the well-formedness hypotheses discharged explicitly. -/
theorem spec_c6_witness :
    (sortVersions g0 [sampleRow2, sampleRow1]).Pairwise (listingSortedRel g0) := by
  apply spec_c6_listing_sort
  intro r hr
  simp only [List.mem_cons, List.not_mem_nil, or_false] at hr
  rcases hr with rfl | rfl
  · exact ⟨⟨"2", rfl, by decide⟩, Or.inr ⟨"3", rfl, by decide⟩⟩
  · exact ⟨⟨"1", rfl, by decide⟩, Or.inl rfl⟩

/-- C10: the as-of date is initialised to the timezone-shifted clock
rendered `YYYY-MM-DD` — four digits, dash, two digits, dash, two digits —
hence non-empty, so the attribute-list query, the point query and the WMS
rendering filter issued with it all carry the validity predicate.  The
hypotheses keep the shifted instant inside years 0-9999, where
`toISOString().slice(0, 10)` is the plain `YYYY-MM-DD` form the model
implements. -/
theorem spec_c10_initial_date (now off : Int) (t : String) (x y : Int)
    (_h1 : 0 ≤ now - off * 60000)
    (_h2 : now - off * 60000 < 253402300800000) :
    initAsOf now off = toISODateOfMs (now - off * 60000) ∧
    initAsOf now off ≠ "" ∧
    (∃ y1 y2 y3 y4 m1 m2 d1 d2 : Char,
      (initAsOf now off).data = [y1, y2, y3, y4, '-', m1, m2, '-', d1, d2] ∧
      y1.isDigit = true ∧ y2.isDigit = true ∧ y3.isDigit = true ∧
      y4.isDigit = true ∧ m1.isDigit = true ∧ m2.isDigit = true ∧
      d1.isDigit = true ∧ d2.isDigit = true) ∧
    jsOrUndefined (initAsOf now off) = some (initAsOf now off) ∧
    buildWfsUrl_cql t (some (initAsOf now off)) =
      "tunnus = " ++ qstr ++ escapeQuotes t ++ qstr ++ " AND " ++
        validityPredicate (initAsOf now off) ∧
    wmsCadFilter (initAsOf now off) =
      some (validityPredicate (initAsOf now off)) ∧
    buildWfsUrl_byPoint_cql x y (some (initAsOf now off)) =
      intersectsPart x y ++ " AND " ++ validityPredicate (initAsOf now off) := by
  obtain ⟨hne, htruthy⟩ := initAsOf_truthy now off
  refine ⟨rfl, hne, initAsOf_shape now off, ?_, ?_, ?_, ?_⟩
  · rw [jsOrUndefined, if_pos htruthy]
  · rw [buildWfsUrl_cql]
    simp only [htruthy, if_true]
  · rw [wmsCadFilter, if_pos htruthy]
  · rw [buildWfsUrl_byPoint_cql]
    simp only [htruthy, if_true]
    rfl

/-- C10 witness: the theorem applied at a concrete clock instant and
timezone offset (UTC+3), whose rendered date evaluates concretely. -/
theorem spec_c10_witness :
    initAsOf 1760140800000 (-180) ≠ "" ∧
    wmsCadFilter (initAsOf 1760140800000 (-180)) =
      some (validityPredicate (initAsOf 1760140800000 (-180))) ∧
    initAsOf 1760140800000 (-180) = "2025-10-11" := by
  obtain ⟨_, h2, _, _, _, h6, _⟩ :=
    spec_c10_initial_date 1760140800000 (-180) "t" 0 0 (by decide) (by decide)
  exact ⟨h2, h6, by decide⟩
